import Mathlib

/-!
# The game engine of `no_fail.go`

A shallow embedding of the step engine of `src/no_fail.go` (types `thing`, `step`,
`player`, `game`, the error types with their methods `Error` and `Unwrap`, and the
functions `supports`, `isValid`, `has`, `do`, `execute`, `newGame`, `giveAdvice`),
followed by theorems about it.

Modelling conventions.

* A Go `map[K]V` is an association list of key/value pairs read by first match
  (`mapLookup`); reading a missing key gives the zero value (`mapGet`), and an
  assignment `m[k] = v` replaces the entry of `k`, or adds one (`mapSet`).
* Go's `int` is `Int`. The increments `p.nEaten++`, `p.nDialogs++` and the decrement
  `g.things[name]--` are guarded by a comparison (`nEaten <= 1`, `nDialogs <= 0`,
  `count > 0`) that keeps them inside the range of `int`, so they are plain `+ 1`
  and `- 1`. The increment `g.nSteps++` has no guard and wraps around at 64 bits
  (`wrapInt`).
* A method with a pointer receiver returns the new value of its receiver next to its
  result; the Go value `nil` of type `error` is `none`.
-/

namespace NoFail

/-- The type `label`: a unique name. -/
abbrev label := String

/-- The type `command`: a command of the game. -/
abbrev command := String

/-- The command `eat`. -/
def eat : command := "eat"

/-- The command `take`. -/
def take : command := "take"

/-- The command `talk`. -/
def talk : command := "talk to"

/-- Reading a Go map with the two-valued form `v, ok := m[k]`. -/
def mapLookup {β : Type} : List (String × β) → String → Option β
  | [], _ => none
  | (k', v) :: rest, k => if k' = k then some v else mapLookup rest k

/-- Reading a Go map of integers, `m[k]`: a missing key reads as 0. -/
def mapGet (m : List (String × Int)) (k : String) : Int :=
  match mapLookup m k with
  | some v => v
  | none => 0

/-- The assignment `m[k] = v` on a Go map. -/
def mapSet : List (String × Int) → String → Int → List (String × Int)
  | [], k, v => [(k, v)]
  | (k', v') :: rest, k, v =>
    if k' = k then (k', v) :: rest else (k', v') :: mapSet rest k v

/-- Go's `int` arithmetic on a 64-bit platform: the result wraps around. -/
def wrapInt (x : Int) : Int := (x + 2 ^ 63) % 2 ^ 64 - 2 ^ 63

/-- The type `thing`: an object of the game. -/
structure thing where
  name : label
  actions : List (command × String)
  deriving DecidableEq, Repr

/-- The method `supports`: whether the map `actions` has the key `action`. -/
def thing.supports (t : thing) (action : command) : Bool :=
  (mapLookup t.actions action).isSome

/-- The object `apple`. -/
def apple : thing := ⟨"apple", [(eat, "mmm, delicious!"), (take, "you have an apple now")]⟩

/-- The object `bob`. -/
def bob : thing := ⟨"bob", [(talk, "Bob says hello")]⟩

/-- The object `coin`. -/
def coin : thing := ⟨"coin", [(take, "you have a coin now")]⟩

/-- The object `mirror`. -/
def mirror : thing :=
  ⟨"mirror", [(take, "you have a mirror now"), (talk, "mirror does not answer")]⟩

/-- The object `mushroom`. -/
def mushroom : thing :=
  ⟨"mushroom", [(eat, "tastes funny"), (take, "you have a mushroom now")]⟩

/-- The type `step`: a command together with an object. -/
structure step where
  cmd : command
  obj : thing
  deriving DecidableEq, Repr

/-- The method `isValid`: the object is compatible with the command. -/
def step.isValid (s : step) : Bool := s.obj.supports s.cmd

/-- The values of Go's interface `error` that the program builds: the four error
structs, the wrapper `gameOverError` around a cause, and any other error value. -/
inductive error where
  | invalidStepError (st : step)
  | notEnoughObjectsError (st : step)
  | commandLimitExceededError (cmd : command)
  | objectLimitExceededError (obj : thing) (limit : Int)
  | gameOverError (err : error) (nSteps : Int)
  | other (msg : String)
  deriving DecidableEq, Repr

/-- The type `player`. -/
structure player where
  nEaten : Int
  nDialogs : Int
  inventory : List thing
  deriving DecidableEq, Repr

/-- The method `player.has`: some object of the inventory has the name of `obj`. -/
def player.has (p : player) (obj : thing) : Bool :=
  p.inventory.any (fun got => decide (got.name = obj.name))

/-- The method `player.do` (`do` is a keyword of Lean): the command `cmd` on the
object `obj` on behalf of the player. -/
def player.doCmd (p : player) (cmd : command) (obj : thing) : Option error × player :=
  if cmd = eat then
    if p.nEaten > 1 then (some (error.commandLimitExceededError eat), p)
    else (none, { p with nEaten := p.nEaten + 1 })
  else if cmd = take then
    if p.has obj then (some (error.objectLimitExceededError obj 1), p)
    else (none, { p with inventory := p.inventory ++ [obj] })
  else if cmd = talk then
    if p.nDialogs > 0 then (some (error.commandLimitExceededError talk), p)
    else (none, { p with nDialogs := p.nDialogs + 1 })
  else (none, p)

/-- The function `newPlayer`. -/
def newPlayer : player := { nEaten := 0, nDialogs := 0, inventory := [] }

/-- The type `game`. -/
structure game where
  player : player
  things : List (label × Int)
  nSteps : Int
  deriving DecidableEq, Repr

/-- The method `game.has`: whether objects of this name are left in the world. -/
def game.has (g : game) (obj : thing) : Bool :=
  decide (mapGet g.things obj.name > 0)

/-- The method `game.execute`: the returned error and the game after the call. -/
def game.execute (g : game) (st : step) : Option error × game :=
  if !st.isValid then
    (some (error.gameOverError (error.invalidStepError st) g.nSteps), g)
  else if st.cmd = take ∨ st.cmd = eat then
    if !g.has st.obj then
      (some (error.gameOverError (error.notEnoughObjectsError st) g.nSteps), g)
    else
      let g1 : game :=
        { g with things := mapSet g.things st.obj.name (mapGet g.things st.obj.name - 1) }
      match g1.player.doCmd st.cmd st.obj with
      | (some err, p) => (some (error.gameOverError err g1.nSteps), { g1 with player := p })
      | (none, p) => (none, { g1 with player := p, nSteps := wrapInt (g1.nSteps + 1) })
  else
    match g.player.doCmd st.cmd st.obj with
    | (some err, p) => (some (error.gameOverError err g.nSteps), { g with player := p })
    | (none, p) => (none, { g with player := p, nSteps := wrapInt (g.nSteps + 1) })

/-- The function `newGame`. -/
def newGame : game :=
  { player := newPlayer
    things := [(apple.name, 2), (coin.name, 3), (mirror.name, 1), (mushroom.name, 1)]
    nSteps := 0 }

/-- The loop of `main` over the steps, without its printing: the steps are executed
in order until the first error. -/
def runSteps (g : game) : List step → Option error × game
  | [] => (none, g)
  | st :: rest =>
    match g.execute st with
    | (some err, g') => (some err, g')
    | (none, g') => runSteps g' rest

/-- The keys of the map `actions` of an object. -/
def thing.keys (t : thing) : List command := t.actions.map Prod.fst

/-- The game after the world count of the object of `st` went down by one. -/
def game.decremented (g : game) (st : step) : game :=
  { g with things := mapSet g.things st.obj.name (mapGet g.things st.obj.name - 1) }

/-- The number of steps of a list that deplete the object named `name`: those with
command `eat` or `take` whose object has this name. -/
def depletions (name : label) (steps : List step) : Nat :=
  (steps.filter (fun st => decide ((st.cmd = eat ∨ st.cmd = take) ∧ st.obj.name = name))).length

/-- The method `Unwrap`, which of the error types only `gameOverError` has: the cause
of the wrapper (`errors.Unwrap` gives `nil` for an error without this method). -/
def error.Unwrap : error → Option error
  | gameOverError err _ => some err
  | _ => none

/-- The call `errors.As(err, &invalidStep)`: the first `invalidStepError` of the chain
that `Unwrap` makes from `err`. -/
def asInvalidStep : error → Option step
  | error.invalidStepError st => some st
  | error.gameOverError err _ => asInvalidStep err
  | _ => none

/-- The call `errors.As(err, &notEnoughObjects)`. -/
def asNotEnoughObjects : error → Option step
  | error.notEnoughObjectsError st => some st
  | error.gameOverError err _ => asNotEnoughObjects err
  | _ => none

/-- The call `errors.As(err, &commandLimit)`. -/
def asCommandLimit : error → Option command
  | error.commandLimitExceededError cmd => some cmd
  | error.gameOverError err _ => asCommandLimit err
  | _ => none

/-- The call `errors.As(err, &objectLimit)`. -/
def asObjectLimit : error → Option (thing × Int)
  | error.objectLimitExceededError obj limit => some (obj, limit)
  | error.gameOverError err _ => asObjectLimit err
  | _ => none

/-- The function `giveAdvice`. The verb `%d` of `fmt.Sprintf` writes an `int` in
decimal, with a minus sign when it is negative, as `toString` does. -/
def giveAdvice (err : error) : String :=
  match asInvalidStep err with
  | some invalidStep =>
    "things like '" ++ invalidStep.cmd ++ " " ++ invalidStep.obj.name ++ "' are impossible"
  | none =>
    match asNotEnoughObjects err with
    | some notEnoughObjects => "be careful with scarce " ++ notEnoughObjects.obj.name ++ "s"
    | none =>
      let rest : String :=
        match asObjectLimit err with
        | some (obj, limit) => "don't be greedy, " ++ toString limit ++ " " ++ obj.name ++ " is enough"
        | none => ""
      match asCommandLimit err with
      | some cmd =>
        if cmd = eat then "eat less"
        else if cmd = talk then "talk to less"
        else rest
      | none => rest

/-- The methods `Error` of the error types. The verb `%s` of `fmt.Sprintf` on a value
of the struct types `step` and `thing` is the rendering of the library `fmt`, which
is taken as the parameters `fmtStep` and `fmtThing`; on an error value it is the `Error`
method of that value. -/
def error.Error (fmtStep : step → String) (fmtThing : thing → String) : error → String
  | invalidStepError st => "cannot " ++ fmtStep st
  | notEnoughObjectsError st => "there are no " ++ fmtThing st.obj ++ "s left"
  | commandLimitExceededError _ => "you don't want to eat anymore"
  | objectLimitExceededError obj _ => "you already have a " ++ fmtThing obj
  | gameOverError err _ => error.Error fmtStep fmtThing err
  | other msg => msg

/-- A sequence of calls of `player.do`, each on the player that the call before it
left, whether that call returned an error or not. -/
def player.doAll (p : player) (calls : List (command × thing)) : player :=
  calls.foldl (fun q c => (q.doCmd c.1 c.2).2) p

/-- A sequence of calls of `game.execute`, each on the game that the call before it
left, whether that call returned an error or not. -/
def game.executeAll (g : game) (steps : List step) : game :=
  steps.foldl (fun q st => (q.execute st).2) g

end NoFail

/-!
# The account parser of `panic_to_error.go`

The function `parseAccount` of `src/panic_to_error.go`, with the two library functions it
calls. A Go string is a `String`; the result of `parseAccount` is `none` when the call
ends in a run-time panic (an index out of range) and otherwise the pair it returns, in
which the error `nil` is `none`.
-/

namespace PanicToError

/-- The type `account`. -/
structure account where
  balance : Int
  overdraft : Int
  deriving DecidableEq, Repr

/-- The errors of `parseAccount`: the error of `strconv.Atoi` for the text `num` (a
`*strconv.NumError`, of which only the text is kept), and the error `errors.New(msg)`. -/
inductive error where
  | numError (num : String)
  | new (msg : String)
  deriving DecidableEq, Repr

/-- The value of a run of decimal digits read after the value `acc`; `none` when a
character is not one of `0` to `9`. -/
def parseDigits : List Char → Nat → Option Nat
  | [], acc => some acc
  | c :: rest, acc =>
    if '0' ≤ c ∧ c ≤ '9' then parseDigits rest (acc * 10 + (c.toNat - '0'.toNat)) else none

/-- The library function `strconv.Atoi` on a 64-bit platform, after its documentation:
an optional sign `+` or `-`, then one decimal digit or more and nothing else, with a
value that an `int` holds; `none` is a non-nil error. -/
def Atoi (s : String) : Option Int :=
  match s.data with
  | [] => none
  | c :: rest =>
    let digits := if c = '-' ∨ c = '+' then rest else c :: rest
    if digits = [] then none
    else
      match parseDigits digits 0 with
      | none => none
      | some n =>
        if c = '-' then (if n ≤ 2 ^ 63 then some (-(n : Int)) else none)
        else (if n < 2 ^ 63 then some (n : Int) else none)

/-- The pieces of a text between the occurrences of the character `sep`. -/
def splitChars (sep : Char) : List Char → List (List Char)
  | [] => [[]]
  | c :: rest =>
    if c = sep then [] :: splitChars sep rest
    else
      match splitChars sep rest with
      | [] => [[c]]
      | piece :: pieces => (c :: piece) :: pieces

/-- The library function `strings.Split` for a separator of one character. -/
def Split (s : String) (sep : Char) : List String :=
  (splitChars sep s.data).map String.mk

/-- The function `parseAccount`; `none` is the panic of an index out of the range of
`parts`. -/
def parseAccount (src : String) : Option (account × Option error) :=
  match Split src '/' with
  | [] => none
  | part0 :: rest =>
    match Atoi part0 with
    | none => some (⟨0, 0⟩, some (error.numError part0))
    | some balance =>
      match rest with
      | [] => none
      | part1 :: _ =>
        match Atoi part1 with
        | none => some (⟨0, 0⟩, some (error.numError part1))
        | some overdraft =>
          if overdraft < 0 then some (⟨0, 0⟩, some (error.new "expect overdraft >= 0"))
          else if balance < -overdraft then
            some (⟨0, 0⟩, some (error.new "balance cannot exceed overdraft"))
          else some (⟨balance, overdraft⟩, none)

/-- The text of `s` before its first `/`, all of `s` when it has none: the words of
the claim on the balance. -/
def textBeforeSlash (s : String) : String :=
  String.mk (s.data.takeWhile (fun c => decide (c ≠ '/')))

/-- The text of `s` after its first `/`, empty when it has none: the words of the
claim on the overdraft. -/
def textAfterSlash (s : String) : String :=
  String.mk ((s.data.dropWhile (fun c => decide (c ≠ '/'))).drop 1)

end PanicToError

namespace NoFail

/-! ## Lemmas on maps -/

theorem mapLookup_isSome_iff {β : Type} (m : List (String × β)) (k : String) :
    (mapLookup m k).isSome = true ↔ k ∈ m.map Prod.fst := by
  induction m with
  | nil => simp [mapLookup]
  | cons p rest ih =>
    obtain ⟨k', v⟩ := p
    by_cases hk : k' = k
    · simp [mapLookup, hk]
    · have hk' : ¬ k = k' := fun h => hk h.symm
      simp only [mapLookup, hk, if_false, ih, List.map_cons, List.mem_cons, hk', false_or]

theorem mapGet_mapSet (m : List (String × Int)) (k : String) (v : Int) (k' : String) :
    mapGet (mapSet m k v) k' = if k' = k then v else mapGet m k' := by
  induction m with
  | nil =>
    by_cases h : k' = k
    · simp [mapSet, mapGet, mapLookup, h]
    · have h' : ¬ k = k' := fun e => h e.symm
      simp [mapSet, mapGet, mapLookup, h, h']
  | cons p rest ih =>
    obtain ⟨a, b⟩ := p
    by_cases ha : a = k
    · subst ha
      by_cases h : k' = a
      · simp [mapSet, mapGet, mapLookup, h]
      · have h' : ¬ a = k' := fun e => h e.symm
        simp [mapSet, mapGet, mapLookup, h, h']
    · by_cases hak : a = k'
      · have h : ¬ k' = k := fun e => ha (hak.trans e)
        simp [mapSet, mapGet, mapLookup, ha, hak, h]
      · have ih' := ih
        simp only [mapGet] at ih'
        simp only [mapSet, ha, if_false, mapGet, mapLookup, hak]
        exact ih'

theorem mem_mapSet (m : List (String × Int)) (k : String) (v : Int) (p : String × Int)
    (hp : p ∈ mapSet m k v) : p ∈ m ∨ p.2 = v := by
  induction m with
  | nil =>
    simp only [mapSet, List.mem_singleton] at hp
    right; rw [hp]
  | cons q rest ih =>
    obtain ⟨a, b⟩ := q
    by_cases ha : a = k
    · simp only [mapSet, ha, if_true, List.mem_cons] at hp
      rcases hp with hp | hp
      · right; rw [hp]
      · left; exact List.mem_cons_of_mem _ hp
    · simp only [mapSet, ha, if_false, List.mem_cons] at hp
      rcases hp with hp | hp
      · left; rw [hp]; exact List.mem_cons_self _ _
      · rcases ih hp with h | h
        · left; exact List.mem_cons_of_mem _ h
        · right; exact h

theorem supports_iff_key (t : thing) (c : command) :
    t.supports c = true ↔ c ∈ t.keys := by
  unfold thing.supports thing.keys
  exact mapLookup_isSome_iff t.actions c

theorem isValid_iff_key (st : step) : st.isValid = true ↔ st.cmd ∈ st.obj.keys := by
  unfold step.isValid
  exact supports_iff_key st.obj st.cmd

/-! ## The commands are pairwise different -/

theorem eat_ne_take : eat ≠ take := by decide

theorem eat_ne_talk : eat ≠ talk := by decide

theorem take_ne_talk : take ≠ talk := by decide

/-! ## What `execute` does, command by command -/

theorem execute_of_invalid (g : game) (st : step) (h : st.isValid = false) :
    g.execute st = (some (error.gameOverError (error.invalidStepError st) g.nSteps), g) := by
  simp [game.execute, h]

theorem execute_of_depleted (g : game) (st : step) (hv : st.isValid = true)
    (hc : st.cmd = take ∨ st.cmd = eat) (hw : mapGet g.things st.obj.name ≤ 0) :
    g.execute st =
      (some (error.gameOverError (error.notEnoughObjectsError st) g.nSteps), g) := by
  have hw' : ¬ 0 < mapGet g.things st.obj.name := not_lt.mpr hw
  simp [game.execute, hv, hc, game.has, hw']

theorem execute_eat (g : game) (st : step) (hv : st.isValid = true) (hc : st.cmd = eat)
    (hw : 0 < mapGet g.things st.obj.name) :
    g.execute st =
      if g.player.nEaten > 1 then
        (some (error.gameOverError (error.commandLimitExceededError eat) g.nSteps),
          g.decremented st)
      else
        (none, { player := { g.player with nEaten := g.player.nEaten + 1 }
                 things := (g.decremented st).things
                 nSteps := wrapInt (g.nSteps + 1) }) := by
  by_cases hn : g.player.nEaten > 1
  · simp [game.execute, hv, hc, game.has, hw, player.doCmd, hn, game.decremented]
  · simp [game.execute, hv, hc, game.has, hw, player.doCmd, hn, game.decremented]

theorem execute_take (g : game) (st : step) (hv : st.isValid = true) (hc : st.cmd = take)
    (hw : 0 < mapGet g.things st.obj.name) :
    g.execute st =
      if g.player.has st.obj then
        (some (error.gameOverError (error.objectLimitExceededError st.obj 1) g.nSteps),
          g.decremented st)
      else
        (none, { player := { g.player with inventory := g.player.inventory ++ [st.obj] }
                 things := (g.decremented st).things
                 nSteps := wrapInt (g.nSteps + 1) }) := by
  have h1 : ¬ take = eat := fun e => eat_ne_take e.symm
  by_cases hn : g.player.has st.obj = true
  · simp [game.execute, hv, hc, game.has, hw, player.doCmd, hn, game.decremented, h1]
  · simp [game.execute, hv, hc, game.has, hw, player.doCmd, hn, game.decremented, h1]

theorem execute_talk (g : game) (st : step) (hv : st.isValid = true) (hc : st.cmd = talk) :
    g.execute st =
      if g.player.nDialogs > 0 then
        (some (error.gameOverError (error.commandLimitExceededError talk) g.nSteps), g)
      else
        (none, { player := { g.player with nDialogs := g.player.nDialogs + 1 }
                 things := g.things
                 nSteps := wrapInt (g.nSteps + 1) }) := by
  have h1 : ¬ talk = eat := fun e => eat_ne_talk e.symm
  have h2 : ¬ talk = take := fun e => take_ne_talk e.symm
  by_cases hn : g.player.nDialogs > 0
  · simp [game.execute, hv, hc, player.doCmd, hn, h1, h2]
  · simp [game.execute, hv, hc, player.doCmd, hn, h1, h2]

theorem execute_other (g : game) (st : step) (hv : st.isValid = true)
    (h1 : st.cmd ≠ eat) (h2 : st.cmd ≠ take) (h3 : st.cmd ≠ talk) :
    g.execute st = (none, { g with nSteps := wrapInt (g.nSteps + 1) }) := by
  simp [game.execute, hv, player.doCmd, h1, h2, h3]

/-! ## The effect of `execute` on the step count and on the world inventory -/

theorem wrapInt_succ (n : Int) (h0 : 0 ≤ n) (h1 : n + 1 < 2 ^ 63) : wrapInt (n + 1) = n + 1 := by
  unfold wrapInt
  norm_num at h1 ⊢
  omega

theorem execute_nSteps_none (g : game) (st : step) (h : (g.execute st).1 = none) :
    (g.execute st).2.nSteps = wrapInt (g.nSteps + 1) := by
  rcases hdo : g.player.doCmd st.cmd st.obj with ⟨_ | err, p⟩ <;>
  by_cases hv : st.isValid = true <;>
  by_cases hc : st.cmd = take ∨ st.cmd = eat <;>
  by_cases hw : 0 < mapGet g.things st.obj.name <;>
  simp [game.execute, hv, hc, hw, game.has, hdo] at h ⊢

theorem execute_nSteps_some (g : game) (st : step) (e : error)
    (h : (g.execute st).1 = some e) :
    (g.execute st).2.nSteps = g.nSteps ∧ ∃ cause, e = error.gameOverError cause g.nSteps := by
  rcases hdo : g.player.doCmd st.cmd st.obj with ⟨_ | err, p⟩ <;>
  by_cases hv : st.isValid = true <;>
  by_cases hc : st.cmd = take ∨ st.cmd = eat <;>
  by_cases hw : 0 < mapGet g.things st.obj.name <;>
  simp [game.execute, hv, hc, hw, game.has, hdo] at h ⊢ <;>
  exact ⟨_, h.symm⟩

theorem execute_things (g : game) (st : step) :
    (g.execute st).2.things =
      if st.isValid = true ∧ (st.cmd = take ∨ st.cmd = eat) ∧ 0 < mapGet g.things st.obj.name
      then (g.decremented st).things else g.things := by
  rcases hdo : g.player.doCmd st.cmd st.obj with ⟨_ | err, p⟩ <;>
  by_cases hv : st.isValid = true <;>
  by_cases hc : st.cmd = take ∨ st.cmd = eat <;>
  by_cases hw : 0 < mapGet g.things st.obj.name <;>
  simp [game.execute, hv, hc, hw, game.has, hdo, game.decremented]

theorem execute_none_depleting (g : game) (st : step) (h : (g.execute st).1 = none)
    (hc : st.cmd = take ∨ st.cmd = eat) :
    st.isValid = true ∧ 0 < mapGet g.things st.obj.name := by
  by_cases hv : st.isValid = true
  · by_cases hw : 0 < mapGet g.things st.obj.name
    · exact ⟨hv, hw⟩
    · simp [game.execute, hv, hc, hw, game.has] at h
  · simp [game.execute, hv] at h

theorem runSteps_append (pre suf : List step) (g : game) (h : (runSteps g pre).1 = none) :
    runSteps g (pre ++ suf) = runSteps (runSteps g pre).2 suf := by
  induction pre generalizing g with
  | nil => rfl
  | cons st rest ih =>
    rcases hex : g.execute st with ⟨_ | err, g'⟩
    · simp only [runSteps, hex, List.cons_append] at h ⊢
      exact ih g' h
    · simp [runSteps, hex] at h

theorem runSteps_nSteps (steps : List step) (g : game) (h0 : 0 ≤ g.nSteps)
    (hlen : g.nSteps + steps.length < 2 ^ 63) (h : (runSteps g steps).1 = none) :
    (runSteps g steps).2.nSteps = g.nSteps + steps.length := by
  induction steps generalizing g with
  | nil => simp [runSteps]
  | cons st rest ih =>
    rcases hex : g.execute st with ⟨_ | err, g'⟩
    · have h1 := execute_nSteps_none g st (by rw [hex])
      simp only [List.length_cons, Nat.cast_add, Nat.cast_one] at hlen
      rw [hex, wrapInt_succ g.nSteps h0 (by omega)] at h1
      simp only at h1
      simp only [runSteps, hex] at h ⊢
      rw [ih g' (by omega) (by omega) h, h1]
      simp only [List.length_cons, Nat.cast_add, Nat.cast_one]
      omega
    · simp [runSteps, hex] at h

theorem mapGet_nonneg (m : List (String × Int)) (h : ∀ p ∈ m, 0 ≤ p.2) (k : String) :
    0 ≤ mapGet m k := by
  induction m with
  | nil => simp [mapGet, mapLookup]
  | cons q rest ih =>
    obtain ⟨a, b⟩ := q
    by_cases ha : a = k
    · have hb := h (a, b) (List.mem_cons_self _ _)
      simpa [mapGet, mapLookup, ha] using hb
    · have ih' := ih (fun p hp => h p (List.mem_cons_of_mem _ hp))
      simpa [mapGet, mapLookup, ha] using ih'

theorem depletions_cons (name : label) (st : step) (rest : List step) :
    depletions name (st :: rest) =
      (if (st.cmd = eat ∨ st.cmd = take) ∧ st.obj.name = name then 1 else 0) +
        depletions name rest := by
  by_cases h : (st.cmd = eat ∨ st.cmd = take) ∧ st.obj.name = name
  · simp only [depletions, List.filter_cons, h, decide_True, and_self, if_true,
      List.length_cons]
    omega
  · simp only [depletions, List.filter_cons, h, decide_False, if_false, Bool.false_eq_true]
    omega

theorem execute_none_count (g : game) (st : step) (h : (g.execute st).1 = none)
    (name : label) :
    (((st.cmd = eat ∨ st.cmd = take) ∧ st.obj.name = name) →
        0 < mapGet g.things name ∧
          mapGet (g.execute st).2.things name = mapGet g.things name - 1) ∧
      (¬ ((st.cmd = eat ∨ st.cmd = take) ∧ st.obj.name = name) →
        mapGet (g.execute st).2.things name = mapGet g.things name) := by
  rw [execute_things]
  constructor
  · rintro ⟨hc, hn⟩
    obtain ⟨hv, hw⟩ := execute_none_depleting g st h hc.symm
    rw [if_pos ⟨hv, hc.symm, hw⟩]
    subst hn
    exact ⟨hw, by simp [game.decremented, mapGet_mapSet]⟩
  · intro hnot
    by_cases hc : st.cmd = take ∨ st.cmd = eat
    · obtain ⟨hv, hw⟩ := execute_none_depleting g st h hc
      have hn : ¬ name = st.obj.name := fun e => hnot ⟨hc.symm, e.symm⟩
      rw [if_pos ⟨hv, hc, hw⟩]
      simp [game.decremented, mapGet_mapSet, hn]
    · rw [if_neg (fun hh => hc hh.2.1)]

theorem runSteps_count (steps : List step) (g : game) (name : label)
    (h : (runSteps g steps).1 = none) :
    mapGet (runSteps g steps).2.things name = mapGet g.things name - depletions name steps ∧
      (0 ≤ mapGet g.things name → 0 ≤ mapGet g.things name - depletions name steps) := by
  induction steps generalizing g with
  | nil => simp [runSteps, depletions]
  | cons st rest ih =>
    rcases hex : g.execute st with ⟨_ | err, g'⟩
    · have h1 := execute_none_count g st (by rw [hex]) name
      rw [hex] at h1
      simp only at h1
      simp only [runSteps, hex] at h ⊢
      obtain ⟨ih1, ih2⟩ := ih g' h
      rw [depletions_cons]
      by_cases hd : (st.cmd = eat ∨ st.cmd = take) ∧ st.obj.name = name
      · obtain ⟨hpos, hcnt⟩ := h1.1 hd
        rw [if_pos hd]
        rw [hcnt] at ih1 ih2
        constructor
        · rw [ih1]; push_cast; omega
        · intro _
          have := ih2 (by omega)
          push_cast; omega
      · have hcnt := h1.2 hd
        rw [if_neg hd]
        rw [hcnt] at ih1 ih2
        constructor
        · rw [ih1]; push_cast; omega
        · intro h0
          have := ih2 h0
          push_cast; omega
    · simp [runSteps, hex] at h

/-! ## The errors of `player.do` and of `execute`, and the inventory of the player -/

theorem doCmd_error_cases (p : player) (cmd : command) (obj : thing) (err : error)
    (h : (p.doCmd cmd obj).1 = some err) :
    (cmd = eat ∧ 1 < p.nEaten ∧ err = error.commandLimitExceededError eat) ∨
      (cmd = take ∧ p.has obj = true ∧ err = error.objectLimitExceededError obj 1) ∨
      (cmd = talk ∧ 0 < p.nDialogs ∧ err = error.commandLimitExceededError talk) := by
  have h1 : ¬ take = eat := fun e => eat_ne_take e.symm
  have h2 : ¬ talk = eat := fun e => eat_ne_talk e.symm
  have h3 : ¬ talk = take := fun e => take_ne_talk e.symm
  unfold player.doCmd at h
  by_cases c1 : cmd = eat
  · by_cases hn : p.nEaten > 1
    · simp [c1, hn] at h
      exact Or.inl ⟨c1, hn, h.symm⟩
    · simp [c1, hn] at h
  · by_cases c2 : cmd = take
    · by_cases hn : p.has obj = true
      · simp [c2, h1, hn] at h
        exact Or.inr (Or.inl ⟨c2, hn, h.symm⟩)
      · simp [c2, h1, hn] at h
    · by_cases c3 : cmd = talk
      · by_cases hn : p.nDialogs > 0
        · simp [c3, h2, h3, hn] at h
          exact Or.inr (Or.inr ⟨c3, hn, h.symm⟩)
        · simp [c3, h2, h3, hn] at h
      · simp [c1, c2, c3] at h

theorem execute_error_cases (g : game) (st : step) (e : error)
    (h : (g.execute st).1 = some e) :
    e = error.gameOverError (error.invalidStepError st) g.nSteps ∨
      e = error.gameOverError (error.notEnoughObjectsError st) g.nSteps ∨
      e = error.gameOverError (error.commandLimitExceededError eat) g.nSteps ∨
      e = error.gameOverError (error.commandLimitExceededError talk) g.nSteps ∨
      e = error.gameOverError (error.objectLimitExceededError st.obj 1) g.nSteps := by
  by_cases hv : st.isValid = true
  · by_cases hc : st.cmd = take ∨ st.cmd = eat
    · by_cases hw : 0 < mapGet g.things st.obj.name
      · rcases hdo : g.player.doCmd st.cmd st.obj with ⟨_ | err, p⟩
        · simp [game.execute, hv, hc, hw, game.has, hdo] at h
        · simp [game.execute, hv, hc, hw, game.has, hdo] at h
          have hcases := doCmd_error_cases g.player st.cmd st.obj err (by rw [hdo])
          rcases hcases with ⟨_, _, he⟩ | ⟨_, _, he⟩ | ⟨_, _, he⟩
          · right; right; left; rw [← h, he]
          · right; right; right; right; rw [← h, he]
          · right; right; right; left; rw [← h, he]
      · simp [game.execute, hv, hc, hw, game.has] at h
        right; left; exact h.symm
    · rcases hdo : g.player.doCmd st.cmd st.obj with ⟨_ | err, p⟩
      · simp [game.execute, hv, hc, hdo] at h
      · simp [game.execute, hv, hc, hdo] at h
        have hcases := doCmd_error_cases g.player st.cmd st.obj err (by rw [hdo])
        rcases hcases with ⟨_, _, he⟩ | ⟨_, _, he⟩ | ⟨_, _, he⟩
        · right; right; left; rw [← h, he]
        · right; right; right; right; rw [← h, he]
        · right; right; right; left; rw [← h, he]
  · simp [game.execute, hv] at h
    left; exact h.symm

theorem append_ne_empty (s t : String) (h : 0 < s.length) : s ++ t ≠ "" := by
  intro he
  have hl := congrArg String.length he
  rw [String.length_append] at hl
  have h0 : ("" : String).length = 0 := rfl
  omega

theorem has_iff_name_mem (p : player) (obj : thing) :
    p.has obj = true ↔ obj.name ∈ p.inventory.map thing.name := by
  unfold player.has
  simp only [List.any_eq_true, decide_eq_true_eq, List.mem_map]

theorem doCmd_inventory_nodup (p : player) (cmd : command) (obj : thing)
    (h : (p.inventory.map thing.name).Nodup) :
    ((p.doCmd cmd obj).2.inventory.map thing.name).Nodup := by
  unfold player.doCmd
  split_ifs with c1 hn c2 hh c3 hd <;> try exact h
  show ((p.inventory ++ [obj]).map thing.name).Nodup
  rw [List.map_append, List.map_singleton]
  have hnot : obj.name ∉ p.inventory.map thing.name := fun hm =>
    hh ((has_iff_name_mem p obj).mpr hm)
  rw [List.nodup_append]
  refine ⟨h, List.nodup_singleton _, ?_⟩
  intro a ha hb
  rw [List.mem_singleton] at hb
  exact hnot (hb ▸ ha)

theorem execute_player (g : game) (st : step) :
    (g.execute st).2.player = g.player ∨
      (g.execute st).2.player = (g.player.doCmd st.cmd st.obj).2 := by
  rcases hdo : g.player.doCmd st.cmd st.obj with ⟨_ | err, p⟩ <;>
  by_cases hv : st.isValid = true <;>
  by_cases hc : st.cmd = take ∨ st.cmd = eat <;>
  by_cases hw : 0 < mapGet g.things st.obj.name <;>
  simp [game.execute, hv, hc, hw, game.has, hdo]

theorem execute_inventory_nodup (g : game) (st : step)
    (h : (g.player.inventory.map thing.name).Nodup) :
    ((g.execute st).2.player.inventory.map thing.name).Nodup := by
  rcases execute_player g st with e | e
  · rw [e]; exact h
  · rw [e]; exact doCmd_inventory_nodup g.player st.cmd st.obj h

theorem doAll_inventory_nodup (calls : List (command × thing)) (p : player)
    (h : (p.inventory.map thing.name).Nodup) :
    ((p.doAll calls).inventory.map thing.name).Nodup := by
  induction calls generalizing p with
  | nil => exact h
  | cons c rest ih =>
    exact ih (p.doCmd c.1 c.2).2 (doCmd_inventory_nodup p c.1 c.2 h)

theorem executeAll_inventory_nodup (steps : List step) (g : game)
    (h : (g.player.inventory.map thing.name).Nodup) :
    (((g.executeAll steps).player).inventory.map thing.name).Nodup := by
  induction steps generalizing g with
  | nil => exact h
  | cons st rest ih =>
    exact ih (g.execute st).2 (execute_inventory_nodup g st h)

/-! ## When `execute` succeeds, in terms of the guards of the code -/

theorem execute_ok_iff_guard (g : game) (c : command) (O : thing)
    (hc : c = eat ∨ c = take ∨ c = talk) :
    ((g.execute ⟨c, O⟩).1 = none ↔
        (c ∈ O.keys ∧
          ((c = eat ∨ c = take) → 0 < mapGet g.things O.name) ∧
          (c = eat → g.player.nEaten ≤ 1) ∧
          (c = take → ∀ got ∈ g.player.inventory, got.name ≠ O.name) ∧
          (c = talk → g.player.nDialogs ≤ 0))) ∧
      (c ∉ O.keys →
        (g.execute ⟨c, O⟩).1 =
          some (error.gameOverError (error.invalidStepError ⟨c, O⟩) g.nSteps)) ∧
      (c ∈ O.keys → (c = eat ∨ c = take) → mapGet g.things O.name ≤ 0 →
        (g.execute ⟨c, O⟩).1 =
          some (error.gameOverError (error.notEnoughObjectsError ⟨c, O⟩) g.nSteps)) ∧
      (c ∈ O.keys → ((c = eat ∨ c = take) → 0 < mapGet g.things O.name) →
        (c = eat → 1 < g.player.nEaten →
          (g.execute ⟨c, O⟩).1 =
            some (error.gameOverError (error.commandLimitExceededError eat) g.nSteps)) ∧
        (c = take → (∃ got ∈ g.player.inventory, got.name = O.name) →
          (g.execute ⟨c, O⟩).1 =
            some (error.gameOverError (error.objectLimitExceededError O 1) g.nSteps)) ∧
        (c = talk → 0 < g.player.nDialogs →
          (g.execute ⟨c, O⟩).1 =
            some (error.gameOverError (error.commandLimitExceededError talk) g.nSteps))) := by
  have h1 : ¬ take = eat := fun e => eat_ne_take e.symm
  have h2 : ¬ talk = eat := fun e => eat_ne_talk e.symm
  have h3 : ¬ talk = take := fun e => take_ne_talk e.symm
  have h4 : ¬ eat = take := eat_ne_take
  have h5 : ¬ eat = talk := eat_ne_talk
  have h6 : ¬ take = talk := take_ne_talk
  have hhas : g.player.has O = true ↔ ∃ got ∈ g.player.inventory, got.name = O.name := by
    simp [player.has]
  have hinv : c ∉ O.keys →
      g.execute ⟨c, O⟩ =
        (some (error.gameOverError (error.invalidStepError ⟨c, O⟩) g.nSteps), g) :=
    fun hk => execute_of_invalid g ⟨c, O⟩ (by
      cases hv : step.isValid ⟨c, O⟩ with
      | false => rfl
      | true => exact absurd ((isValid_iff_key ⟨c, O⟩).mp hv) hk)
  have hdep : c ∈ O.keys → (c = eat ∨ c = take) → mapGet g.things O.name ≤ 0 →
      g.execute ⟨c, O⟩ =
        (some (error.gameOverError (error.notEnoughObjectsError ⟨c, O⟩) g.nSteps), g) :=
    fun hk hd hw =>
      execute_of_depleted g ⟨c, O⟩ ((isValid_iff_key ⟨c, O⟩).mpr hk) hd.symm hw
  refine ⟨?_, fun hk => by rw [hinv hk], fun hk hd hw => by rw [hdep hk hd hw], ?_⟩
  · by_cases hk : c ∈ O.keys
    · have hv : step.isValid ⟨c, O⟩ = true := (isValid_iff_key ⟨c, O⟩).mpr hk
      rcases hc with hc | hc | hc
      · subst hc
        by_cases hw : 0 < mapGet g.things O.name
        · rw [execute_eat g ⟨eat, O⟩ hv rfl hw]
          by_cases hn : g.player.nEaten > 1
          · have hn' : ¬ g.player.nEaten ≤ 1 := not_le.mpr hn
            simp [hn, hn', hk, hw, h4, h5]
          · have hn' : g.player.nEaten ≤ 1 := not_lt.mp hn
            simp [hn, hn', hk, hw, h4, h5]
        · rw [hdep hk (Or.inl rfl) (not_lt.mp hw)]
          simp [hw]
      · subst hc
        by_cases hw : 0 < mapGet g.things O.name
        · rw [execute_take g ⟨take, O⟩ hv rfl hw]
          by_cases hn : g.player.has O = true
          · have hex := hhas.mp hn
            simp only [hn, if_true]
            constructor
            · intro h; cases h
            · intro h
              obtain ⟨got, hg, hgn⟩ := hex
              exact absurd hgn (h.2.2.2.1 trivial got hg)
          · have hne : ∀ got ∈ g.player.inventory, got.name ≠ O.name :=
              fun got hg hgn => hn (hhas.mpr ⟨got, hg, hgn⟩)
            simp only [hn, Bool.false_eq_true, if_false, true_iff]
            exact ⟨hk, fun _ => hw, fun h => absurd h h1, fun _ => hne,
              fun h => absurd h h6⟩
        · rw [hdep hk (Or.inr rfl) (not_lt.mp hw)]
          simp [hw]
      · subst hc
        rw [execute_talk g ⟨talk, O⟩ hv rfl]
        by_cases hn : g.player.nDialogs > 0
        · have hn' : ¬ g.player.nDialogs ≤ 0 := not_le.mpr hn
          simp [hn, hn', h2, h3]
        · have hn' : g.player.nDialogs ≤ 0 := not_lt.mp hn
          simp [hn, hn', hk, h2, h3]
    · rw [hinv hk]
      simp [hk]
  · intro hk hw
    have hv : step.isValid ⟨c, O⟩ = true := (isValid_iff_key ⟨c, O⟩).mpr hk
    refine ⟨?_, ?_, ?_⟩
    · intro he hn
      subst he
      rw [execute_eat g ⟨eat, O⟩ hv rfl (hw (Or.inl rfl)), if_pos hn]
    · intro he hn
      subst he
      rw [execute_take g ⟨take, O⟩ hv rfl (hw (Or.inr rfl))]
      simp only [hhas.mpr hn, if_true]
    · intro he hn
      subst he
      rw [execute_talk g ⟨talk, O⟩ hv rfl, if_pos hn]

theorem doCmd_nDialogs_nonneg (p : player) (cmd : command) (obj : thing)
    (h : 0 ≤ p.nDialogs) : 0 ≤ (p.doCmd cmd obj).2.nDialogs := by
  unfold player.doCmd
  split_ifs <;> first | exact h | (show 0 ≤ p.nDialogs + 1; omega)

theorem execute_nDialogs_nonneg (g : game) (st : step) (h : 0 ≤ g.player.nDialogs) :
    0 ≤ (g.execute st).2.player.nDialogs := by
  rcases execute_player g st with e | e
  · rw [e]; exact h
  · rw [e]; exact doCmd_nDialogs_nonneg g.player st.cmd st.obj h

theorem executeAll_nDialogs_nonneg (steps : List step) (g : game)
    (h : 0 ≤ g.player.nDialogs) : 0 ≤ (g.executeAll steps).player.nDialogs := by
  induction steps generalizing g with
  | nil => exact h
  | cons st rest ih => exact ih (g.execute st).2 (execute_nDialogs_nonneg g st h)

/-! ## The claims -/

/-- C1: a step whose command is not a key of the actions of its object makes
`execute` return a `gameOverError` with cause `invalidStepError` of that step and with
the step count of the game, and the game (world inventory, player, step count) is
what it was, whatever the inventory and the player are. -/
theorem execute_invalid_step (g : game) (st : step) (h : st.cmd ∉ st.obj.keys) :
    g.execute st =
      (some (error.gameOverError (error.invalidStepError st) g.nSteps), g) := by
  apply execute_of_invalid
  cases hv : st.isValid with
  | false => rfl
  | true => exact absurd ((isValid_iff_key st).mp hv) h

/-- C1 on a new game: `eat mirror` fails with `invalidStepError` at step count 0. -/
theorem execute_invalid_step_witness :
    eat ∉ mirror.keys ∧
      newGame.execute ⟨eat, mirror⟩ =
        (some (error.gameOverError (error.invalidStepError ⟨eat, mirror⟩) 0), newGame) :=
  ⟨by decide, execute_invalid_step newGame ⟨eat, mirror⟩ (by decide)⟩

/-- C2: for `c` one of `eat`, `take` and an object `O` that supports `c` and has world
count 0 (its name has the entry 0 in `g.things`, or no entry), `execute` of the step
`c O` returns a `gameOverError` with cause `notEnoughObjectsError` of that step,
whatever the player is, and the game after the call is the game before it: player,
step count and every world count, the one of `O` included, are unchanged. -/
theorem execute_depleted (g : game) (c : command) (O : thing)
    (hc : c = eat ∨ c = take) (hs : c ∈ O.keys)
    (h0 : mapLookup g.things O.name = none ∨ mapLookup g.things O.name = some 0) :
    g.execute ⟨c, O⟩ =
      (some (error.gameOverError (error.notEnoughObjectsError ⟨c, O⟩) g.nSteps), g) := by
  apply execute_of_depleted
  · exact (isValid_iff_key ⟨c, O⟩).mpr hs
  · exact hc.symm
  · show mapGet g.things O.name ≤ 0
    unfold mapGet
    rcases h0 with h | h <;> simp [h]

/-- C2 on a new game, for an object `key` that has no entry in the world inventory. -/
theorem execute_depleted_witness :
    newGame.execute ⟨take, ⟨"key", [(take, "you have a key now")]⟩⟩ =
      (some (error.gameOverError
        (error.notEnoughObjectsError ⟨take, ⟨"key", [(take, "you have a key now")]⟩⟩) 0),
        newGame) :=
  execute_depleted newGame take ⟨"key", [(take, "you have a key now")]⟩
    (Or.inr rfl) (by decide) (Or.inl (by decide))

/-- C3: from a player that has eaten nothing, three `eat` steps, each on an object
that supports `eat` and has a positive world count when the step is executed: the
first and the second return `nil`, the third returns a `gameOverError` with cause
`commandLimitExceededError` of `eat`, although the world count of its object is
positive. -/
theorem third_eat_fails (g : game) (s1 s2 s3 : step) (h0 : g.player.nEaten = 0)
    (hc1 : s1.cmd = eat) (hc2 : s2.cmd = eat) (hc3 : s3.cmd = eat)
    (hv1 : s1.cmd ∈ s1.obj.keys) (hv2 : s2.cmd ∈ s2.obj.keys) (hv3 : s3.cmd ∈ s3.obj.keys)
    (hw1 : 0 < mapGet g.things s1.obj.name)
    (hw2 : 0 < mapGet (g.execute s1).2.things s2.obj.name)
    (hw3 : 0 < mapGet ((g.execute s1).2.execute s2).2.things s3.obj.name) :
    (g.execute s1).1 = none ∧
      ((g.execute s1).2.execute s2).1 = none ∧
      (((g.execute s1).2.execute s2).2.execute s3).1 =
        some (error.gameOverError (error.commandLimitExceededError eat)
          ((g.execute s1).2.execute s2).2.nSteps) := by
  have e1 := execute_eat g s1 ((isValid_iff_key s1).mpr hv1) hc1 hw1
  simp only [h0, gt_iff_lt, show ¬ (1 : Int) < 0 by decide, if_false] at e1
  rw [e1] at hw2 hw3 ⊢
  have e2 := execute_eat _ s2 ((isValid_iff_key s2).mpr hv2) hc2 hw2
  simp only [gt_iff_lt, show ¬ (1 : Int) < 0 + 1 by decide, if_false] at e2
  rw [e2] at hw3 ⊢
  have e3 := execute_eat _ s3 ((isValid_iff_key s3).mpr hv3) hc3 hw3
  simp only [gt_iff_lt, show (1 : Int) < 0 + 1 + 1 by decide, if_true] at e3
  rw [e3]
  exact ⟨rfl, rfl, rfl⟩

/-- C3 on a new game: `eat apple`, `eat mushroom`, `eat apple`. -/
theorem third_eat_fails_witness :
    (newGame.execute ⟨eat, apple⟩).1 = none ∧
      ((newGame.execute ⟨eat, apple⟩).2.execute ⟨eat, mushroom⟩).1 = none ∧
      (((newGame.execute ⟨eat, apple⟩).2.execute ⟨eat, mushroom⟩).2.execute ⟨eat, apple⟩).1 =
        some (error.gameOverError (error.commandLimitExceededError eat)
          ((newGame.execute ⟨eat, apple⟩).2.execute ⟨eat, mushroom⟩).2.nSteps) :=
  third_eat_fails newGame ⟨eat, apple⟩ ⟨eat, mushroom⟩ ⟨eat, apple⟩ rfl rfl rfl rfl
    (by decide) (by decide) (by decide) (by decide) (by decide) (by decide)

/-- C4: from a player that has talked to nobody, two `talk` steps on objects that
support `talk`: the first returns `nil`, the second returns a `gameOverError` with cause
`commandLimitExceededError` of `talk`. The world inventory is the same after each of
them, and neither depends on it: with any other inventory `w` in place of the one of
the game, each step returns the same result and leaves the same player and step count,
and `w` itself. -/
theorem second_talk_fails (g : game) (s1 s2 : step) (h0 : g.player.nDialogs = 0)
    (hc1 : s1.cmd = talk) (hc2 : s2.cmd = talk)
    (hv1 : s1.cmd ∈ s1.obj.keys) (hv2 : s2.cmd ∈ s2.obj.keys) :
    (g.execute s1).1 = none ∧
      ((g.execute s1).2.execute s2).1 =
        some (error.gameOverError (error.commandLimitExceededError talk)
          (g.execute s1).2.nSteps) ∧
      (g.execute s1).2.things = g.things ∧
      ((g.execute s1).2.execute s2).2.things = g.things ∧
      ∀ w : List (label × Int),
        game.execute { g with things := w } s1 =
            ((g.execute s1).1, { (g.execute s1).2 with things := w }) ∧
          game.execute { (g.execute s1).2 with things := w } s2 =
            (((g.execute s1).2.execute s2).1,
              { ((g.execute s1).2.execute s2).2 with things := w }) := by
  have hi1 := (isValid_iff_key s1).mpr hv1
  have hi2 := (isValid_iff_key s2).mpr hv2
  have e1 : ∀ w : List (label × Int), game.execute { g with things := w } s1 =
      (none, { player := { g.player with nDialogs := g.player.nDialogs + 1 }
               things := w
               nSteps := wrapInt (g.nSteps + 1) }) := by
    intro w
    have e := execute_talk { g with things := w } s1 hi1 hc1
    simp only [h0, gt_iff_lt, lt_irrefl, if_false] at e
    simp only [h0]
    exact e
  have e2 : ∀ w : List (label × Int),
      game.execute { player := { g.player with nDialogs := g.player.nDialogs + 1 }
                     things := w
                     nSteps := wrapInt (g.nSteps + 1) } s2 =
        (some (error.gameOverError (error.commandLimitExceededError talk)
          (wrapInt (g.nSteps + 1))),
          { player := { g.player with nDialogs := g.player.nDialogs + 1 }
            things := w
            nSteps := wrapInt (g.nSteps + 1) }) := by
    intro w
    have e := execute_talk { player := { g.player with nDialogs := g.player.nDialogs + 1 }
                             things := w
                             nSteps := wrapInt (g.nSteps + 1) } s2 hi2 hc2
    simp only [h0, gt_iff_lt, show (0 : Int) < 0 + 1 by decide, if_true] at e
    simp only [h0]
    exact e
  have e1g := e1 g.things
  have e2g := e2 g.things
  simp only at e1g
  rw [e1g, e2g]
  refine ⟨rfl, rfl, rfl, rfl, fun w => ⟨e1 w, e2 w⟩⟩

/-- C4 on a new game: `talk to bob`, then `talk to mirror`. -/
theorem second_talk_fails_witness :
    (newGame.execute ⟨talk, bob⟩).1 = none ∧
      ((newGame.execute ⟨talk, bob⟩).2.execute ⟨talk, mirror⟩).1 =
        some (error.gameOverError (error.commandLimitExceededError talk) 1) :=
  have h := second_talk_fails newGame ⟨talk, bob⟩ ⟨talk, mirror⟩ rfl rfl rfl
    (by decide) (by decide)
  ⟨h.1, h.2.1⟩

/-- C5: when the player holds no object named as `O`, `O` supports `take` and the
world count of `O` is at least 2, the first `take O` returns `nil` and appends `O` to
the inventory of the player, so that the player holds it; the world count of `O` is
then one less and still positive, and the second `take O` returns a `gameOverError`
with cause `objectLimitExceededError` of `O` with limit 1. -/
theorem second_take_fails (g : game) (O : thing) (hp : g.player.has O = false)
    (hs : take ∈ O.keys) (hw : 2 ≤ mapGet g.things O.name) :
    (g.execute ⟨take, O⟩).1 = none ∧
      (g.execute ⟨take, O⟩).2.player.inventory = g.player.inventory ++ [O] ∧
      (g.execute ⟨take, O⟩).2.player.has O = true ∧
      mapGet (g.execute ⟨take, O⟩).2.things O.name = mapGet g.things O.name - 1 ∧
      0 < mapGet (g.execute ⟨take, O⟩).2.things O.name ∧
      ((g.execute ⟨take, O⟩).2.execute ⟨take, O⟩).1 =
        some (error.gameOverError (error.objectLimitExceededError O 1)
          (g.execute ⟨take, O⟩).2.nSteps) := by
  have hv : step.isValid ⟨take, O⟩ = true := (isValid_iff_key ⟨take, O⟩).mpr hs
  have hw1 : 0 < mapGet g.things (step.obj ⟨take, O⟩).name := by
    show 0 < mapGet g.things O.name
    omega
  have e1 := execute_take g ⟨take, O⟩ hv rfl hw1
  simp only [hp, Bool.false_eq_true, if_false] at e1
  have hcount : mapGet (g.decremented ⟨take, O⟩).things O.name = mapGet g.things O.name - 1 := by
    simp [game.decremented, mapGet_mapSet]
  have hhas : player.has { g.player with inventory := g.player.inventory ++ [O] } O = true := by
    simp [player.has]
  rw [e1]
  have hw2 : 0 < mapGet (g.decremented ⟨take, O⟩).things O.name := by
    rw [hcount]; omega
  have e2 := execute_take
    { player := { g.player with inventory := g.player.inventory ++ [O] }
      things := (g.decremented ⟨take, O⟩).things
      nSteps := wrapInt (g.nSteps + 1) } ⟨take, O⟩ hv rfl hw2
  simp only [hhas, if_true] at e2
  rw [e2]
  exact ⟨rfl, rfl, hhas, hcount, hw2, rfl⟩

/-- C5 on a new game, with the object `coin` (world count 3). -/
theorem second_take_fails_witness :
    (newGame.execute ⟨take, coin⟩).1 = none ∧
      ((newGame.execute ⟨take, coin⟩).2.execute ⟨take, coin⟩).1 =
        some (error.gameOverError (error.objectLimitExceededError coin 1) 1) :=
  have h := second_take_fails newGame coin rfl (by decide) (by decide)
  ⟨h.1, h.2.2.2.2.2⟩

/-- C6 as stated fails: on a new game the third `eat apple` does not return a
`gameOverError` with cause `commandLimitExceededError` of `eat`. -/
theorem eat_apple_thrice_not_command_limit :
    ¬ ((newGame.execute ⟨eat, apple⟩).1 = none ∧
        ((newGame.execute ⟨eat, apple⟩).2.execute ⟨eat, apple⟩).1 = none ∧
        ((newGame.execute ⟨eat, apple⟩).2.execute ⟨eat, apple⟩).2.nSteps = 2 ∧
        (((newGame.execute ⟨eat, apple⟩).2.execute ⟨eat, apple⟩).2.execute ⟨eat, apple⟩).1 =
          some (error.gameOverError (error.commandLimitExceededError eat) 2)) := by
  decide

/-- C6, amended: on a new game (world count of `apple` 2) the first two `eat apple`
return `nil` and leave the step count 2 and the world count of `apple` 0, and the third
returns a `gameOverError` with step count 2 whose cause is `notEnoughObjectsError` of the
step `eat apple`; the step count is 2 after it. -/
theorem eat_apple_thrice_not_enough :
    (newGame.execute ⟨eat, apple⟩).1 = none ∧
      ((newGame.execute ⟨eat, apple⟩).2.execute ⟨eat, apple⟩).1 = none ∧
      ((newGame.execute ⟨eat, apple⟩).2.execute ⟨eat, apple⟩).2.nSteps = 2 ∧
      mapGet ((newGame.execute ⟨eat, apple⟩).2.execute ⟨eat, apple⟩).2.things apple.name = 0 ∧
      (((newGame.execute ⟨eat, apple⟩).2.execute ⟨eat, apple⟩).2.execute ⟨eat, apple⟩).1 =
        some (error.gameOverError (error.notEnoughObjectsError ⟨eat, apple⟩) 2) ∧
      (((newGame.execute ⟨eat, apple⟩).2.execute ⟨eat, apple⟩).2.execute
        ⟨eat, apple⟩).2.nSteps = 2 := by
  decide

/-- C7: a game with step count 0 runs a list of steps (a Go slice, so shorter than
2 ^ 63) in order until the first error. If the steps before index `i` all succeed, the
step count before step `i` is `i`; if step `i` succeeds the step count is `i + 1` after
it; if step `i` fails, it is the error of the run, it is a `gameOverError` carrying the
step count `i`, and the step count of the game is still `i`. If no step fails, the
step count at the end is the length of the list. -/
theorem nSteps_counts_successes (g : game) (steps : List step) (h0 : g.nSteps = 0)
    (hlen : steps.length < 2 ^ 63) :
    (∀ (i : Nat) (hi : i < steps.length), (runSteps g (steps.take i)).1 = none →
        (runSteps g (steps.take i)).2.nSteps = i ∧
        (((runSteps g (steps.take i)).2.execute steps[i]).1 = none →
          ((runSteps g (steps.take i)).2.execute steps[i]).2.nSteps = i + 1) ∧
        (∀ e, ((runSteps g (steps.take i)).2.execute steps[i]).1 = some e →
          (∃ cause, e = error.gameOverError cause i) ∧
          ((runSteps g (steps.take i)).2.execute steps[i]).2.nSteps = i ∧
          runSteps g steps = (runSteps g (steps.take i)).2.execute steps[i])) ∧
      ((runSteps g steps).1 = none → (runSteps g steps).2.nSteps = steps.length) := by
  have hlen' : (steps.length : Int) < 2 ^ 63 := by exact_mod_cast hlen
  constructor
  · intro i hi hpre
    have hti : (steps.take i).length = i := by
      rw [List.length_take]; omega
    have hn : (runSteps g (steps.take i)).2.nSteps = i := by
      have := runSteps_nSteps (steps.take i) g (by omega) (by rw [hti]; omega) hpre
      rw [this, h0, hti]; omega
    refine ⟨hn, ?_, ?_⟩
    · intro hok
      rw [execute_nSteps_none _ _ hok, hn]
      exact wrapInt_succ i (by omega) (by omega)
    · intro e he
      obtain ⟨h1, cause, h2⟩ := execute_nSteps_some _ _ e he
      rw [hn] at h1 h2
      refine ⟨⟨cause, h2⟩, h1, ?_⟩
      have hsplit : steps = steps.take i ++ steps[i] :: steps.drop (i + 1) := by
        rw [← List.drop_eq_getElem_cons hi, List.take_append_drop]
      conv_lhs => rw [hsplit]
      rw [runSteps_append _ _ g hpre]
      rcases hex : (runSteps g (steps.take i)).2.execute steps[i] with ⟨_ | err, g'⟩
      · rw [hex] at he; simp at he
      · simp [runSteps, hex]
  · intro hok
    have := runSteps_nSteps steps g (by omega) (by omega) hok
    rw [this, h0]; omega

/-- C7 on a new game: after `eat apple`, `talk to bob` the second `talk to bob`, at
index 2, fails with step count 2, and the step count of the game stays 2. -/
theorem nSteps_counts_successes_witness :
    (∃ cause, (runSteps newGame [⟨eat, apple⟩, ⟨talk, bob⟩, ⟨talk, bob⟩]).1 =
        some (error.gameOverError cause 2)) ∧
      (runSteps newGame [⟨eat, apple⟩, ⟨talk, bob⟩, ⟨talk, bob⟩]).2.nSteps = 2 ∧
      (runSteps newGame [⟨eat, apple⟩, ⟨talk, bob⟩]).2.nSteps = 2 :=
  have h := (nSteps_counts_successes newGame [⟨eat, apple⟩, ⟨talk, bob⟩, ⟨talk, bob⟩] rfl
    (by norm_num)).1 2 (by decide) (by decide)
  have h3 := h.2.2 (error.gameOverError (error.commandLimitExceededError talk) 2) (by decide)
  ⟨by rw [h3.2.2]; exact ⟨_, rfl⟩, by rw [h3.2.2]; exact h3.2.1, h.1⟩

/-- C8: when all the steps of a list execute successfully in order, the final world
count of every object name `O` is its initial count minus the number of `eat` and `take`
steps of the list whose object is named `O`, and this difference is not negative when
the initial count is not negative. A `talk` step, successful or not, leaves the world
inventory as it is. -/
theorem world_count_after_run (g : game) (steps : List step) (O : label)
    (hok : (runSteps g steps).1 = none) :
    mapGet (runSteps g steps).2.things O = mapGet g.things O - depletions O steps ∧
      (0 ≤ mapGet g.things O → 0 ≤ mapGet g.things O - depletions O steps) ∧
      ∀ (g0 : game) (st : step), st.cmd = talk → (g0.execute st).2.things = g0.things := by
  obtain ⟨h1, h2⟩ := runSteps_count steps g O hok
  refine ⟨h1, h2, ?_⟩
  intro g0 st hc
  rw [execute_things]
  have hne : ¬ (st.cmd = take ∨ st.cmd = eat) := by
    rw [hc]
    rintro (h | h)
    · exact take_ne_talk h.symm
    · exact eat_ne_talk h.symm
  rw [if_neg (fun hh => hne hh.2.1)]

/-- C8 on a new game: after `take coin`, `talk to bob`, `eat apple`, `take apple` the
world count of `apple` is 2 - 2 = 0. -/
theorem world_count_after_run_witness :
    mapGet (runSteps newGame
      [⟨take, coin⟩, ⟨talk, bob⟩, ⟨eat, apple⟩, ⟨take, apple⟩]).2.things "apple" = 2 - 2 :=
  (world_count_after_run newGame [⟨take, coin⟩, ⟨talk, bob⟩, ⟨eat, apple⟩, ⟨take, apple⟩]
    "apple" (by decide)).1

/-- C9: when every count of the world inventory is at least 0, then after `execute` of
any step, whether it succeeds or fails, every count of the world inventory is at least 0,
and the count of no name is greater than before. -/
theorem world_counts_nonneg (g : game) (st : step) (hnn : ∀ p ∈ g.things, 0 ≤ p.2) :
    (∀ p ∈ (g.execute st).2.things, 0 ≤ p.2) ∧
      (∀ name, 0 ≤ mapGet (g.execute st).2.things name) ∧
      ∀ name, mapGet (g.execute st).2.things name ≤ mapGet g.things name := by
  have hent : ∀ p ∈ (g.execute st).2.things, 0 ≤ p.2 := by
    rw [execute_things]
    split_ifs with hh
    · intro p hp
      rcases mem_mapSet _ _ _ p hp with h | h
      · exact hnn p h
      · rw [h]
        have := hh.2.2
        omega
    · exact hnn
  refine ⟨hent, fun name => mapGet_nonneg _ hent name, ?_⟩
  intro name
  rw [execute_things]
  split_ifs with hh
  · simp only [game.decremented, mapGet_mapSet]
    split_ifs with hn
    · rw [hn]; omega
    · exact le_refl _
  · exact le_refl _

/-- C9 on a new game and the step `eat mushroom`, which takes the last mushroom. -/
theorem world_counts_nonneg_witness :
    (∀ p ∈ (newGame.execute ⟨eat, mushroom⟩).2.things, 0 ≤ p.2) ∧
      mapGet (newGame.execute ⟨eat, mushroom⟩).2.things "mushroom" ≤ 1 :=
  have h := world_counts_nonneg newGame ⟨eat, mushroom⟩ (by decide)
  ⟨h.1, h.2.2 "mushroom"⟩

/-- C10: for a step `c O` with `c` one of `eat`, `take`, `O` supporting `c`, world count
`k > 0` of `O`, and the player at the limit of `c` (more than one eaten for `eat`; an
object named as `O` held for `take`), `execute` returns the error of the player wrapped
with the step count (`commandLimitExceededError` of `eat`, or
`objectLimitExceededError` of `O` with limit 1), the world count of `O` becomes `k - 1`
and is not restored, the other counts, the player and the step count are unchanged. -/
theorem decrement_not_rolled_back (g : game) (c : command) (O : thing) (k : Int)
    (hs : c ∈ O.keys) (hk : mapGet g.things O.name = k) (hpos : 0 < k)
    (hlim : (c = eat ∧ g.player.nEaten > 1) ∨ (c = take ∧ g.player.has O = true)) :
    ((c = eat ∧ (g.execute ⟨c, O⟩).1 =
          some (error.gameOverError (error.commandLimitExceededError eat) g.nSteps)) ∨
        (c = take ∧ (g.execute ⟨c, O⟩).1 =
          some (error.gameOverError (error.objectLimitExceededError O 1) g.nSteps))) ∧
      mapGet (g.execute ⟨c, O⟩).2.things O.name = k - 1 ∧
      (∀ name, name ≠ O.name →
        mapGet (g.execute ⟨c, O⟩).2.things name = mapGet g.things name) ∧
      (g.execute ⟨c, O⟩).2.player = g.player ∧
      (g.execute ⟨c, O⟩).2.nSteps = g.nSteps := by
  have hv : step.isValid ⟨c, O⟩ = true := (isValid_iff_key ⟨c, O⟩).mpr hs
  have hw : 0 < mapGet g.things (step.obj ⟨c, O⟩).name := by
    show 0 < mapGet g.things O.name
    omega
  have hcount : mapGet (g.decremented ⟨c, O⟩).things O.name = k - 1 := by
    simp [game.decremented, mapGet_mapSet, hk]
  have hother : ∀ name, name ≠ O.name →
      mapGet (g.decremented ⟨c, O⟩).things name = mapGet g.things name := by
    intro name hn
    simp [game.decremented, mapGet_mapSet, hn]
  rcases hlim with ⟨hc, hn⟩ | ⟨hc, hn⟩
  · have e := execute_eat g ⟨c, O⟩ hv hc hw
    rw [if_pos hn] at e
    rw [e]
    exact ⟨Or.inl ⟨hc, rfl⟩, hcount, hother, rfl, rfl⟩
  · have e := execute_take g ⟨c, O⟩ hv hc hw
    simp only [hn, if_true] at e
    rw [e]
    exact ⟨Or.inr ⟨hc, rfl⟩, hcount, hother, rfl, rfl⟩

/-- C10 after `take coin` on a new game: a second `take coin` is rejected by the player
and the world count of `coin` goes from 2 to 1 all the same. -/
theorem decrement_not_rolled_back_witness :
    mapGet ((newGame.execute ⟨take, coin⟩).2.execute ⟨take, coin⟩).2.things "coin" = 2 - 1 ∧
      ((newGame.execute ⟨take, coin⟩).2.execute ⟨take, coin⟩).2.player =
        (newGame.execute ⟨take, coin⟩).2.player :=
  have h := decrement_not_rolled_back (newGame.execute ⟨take, coin⟩).2 take coin 2
    (by decide) (by decide) (by decide) (Or.inr ⟨rfl, by decide⟩)
  ⟨h.2.1, h.2.2.2.1⟩

/-- C11: `player.do` changes nothing when it returns an error: the player after the
call is the player before it. When it returns `nil`, for `eat` the count of eaten is
one more and the count of dialogs and the inventory are unchanged; for `take` the
object is appended to the inventory and the two counts are unchanged; for `talk` the
count of dialogs is one more and the count of eaten and the inventory are unchanged. -/
theorem player_do_atomic (p : player) (cmd : command) (obj : thing) :
    ((p.doCmd cmd obj).1 ≠ none → (p.doCmd cmd obj).2 = p) ∧
      ((p.doCmd cmd obj).1 = none →
        (cmd = eat →
          (p.doCmd cmd obj).2.nEaten = p.nEaten + 1 ∧
            (p.doCmd cmd obj).2.nDialogs = p.nDialogs ∧
            (p.doCmd cmd obj).2.inventory = p.inventory) ∧
        (cmd = take →
          (p.doCmd cmd obj).2.inventory = p.inventory ++ [obj] ∧
            (p.doCmd cmd obj).2.nEaten = p.nEaten ∧
            (p.doCmd cmd obj).2.nDialogs = p.nDialogs) ∧
        (cmd = talk →
          (p.doCmd cmd obj).2.nDialogs = p.nDialogs + 1 ∧
            (p.doCmd cmd obj).2.nEaten = p.nEaten ∧
            (p.doCmd cmd obj).2.inventory = p.inventory)) := by
  have h1 : ¬ take = eat := fun e => eat_ne_take e.symm
  have h2 : ¬ talk = eat := fun e => eat_ne_talk e.symm
  have h3 : ¬ talk = take := fun e => take_ne_talk e.symm
  constructor
  · intro herr
    unfold player.doCmd at herr ⊢
    split_ifs at herr ⊢ <;> first | rfl | exact absurd rfl herr
  · intro hok
    unfold player.doCmd at hok ⊢
    refine ⟨?_, ?_, ?_⟩
    · intro hc
      subst hc
      by_cases hn : p.nEaten > 1
      · simp [hn] at hok
      · simp [hn]
    · intro hc
      subst hc
      by_cases hn : p.has obj = true
      · simp [hn, h1] at hok
      · simp [hn, h1]
    · intro hc
      subst hc
      by_cases hn : p.nDialogs > 0
      · simp [hn, h2, h3] at hok
      · simp [hn, h2, h3]

/-- C11 on the player that holds a coin: a second `take coin` returns an error and
leaves the player as it was, and `take apple` returns `nil` and appends the apple. -/
theorem player_do_atomic_witness :
    player.doCmd ⟨0, 0, [coin]⟩ take coin =
        (some (error.objectLimitExceededError coin 1), ⟨0, 0, [coin]⟩) ∧
      (player.doCmd ⟨0, 0, [coin]⟩ take apple).2.inventory = [coin] ++ [apple] :=
  ⟨Prod.ext (by decide)
      ((player_do_atomic ⟨0, 0, [coin]⟩ take coin).1 (by decide)),
    (((player_do_atomic ⟨0, 0, [coin]⟩ take apple).2 (by decide)).2.1 rfl).1⟩

/-- C12 as stated fails: the advice of `giveAdvice` is not the text of the templates
of the specification, for any of the five kinds of error. -/
theorem giveAdvice_not_spec_templates :
    giveAdvice (error.invalidStepError ⟨eat, mirror⟩) ≠
        "performing `eat mirror` is never possible" ∧
      giveAdvice (error.notEnoughObjectsError ⟨eat, apple⟩) ≠
        "be careful — `apple` supply is scarce" ∧
      giveAdvice (error.commandLimitExceededError eat) ≠ "reduce how often you eat" ∧
      giveAdvice (error.commandLimitExceededError talk) ≠ "reduce how often you talk" ∧
      giveAdvice (error.objectLimitExceededError coin 1) ≠
        "you already hold the maximum (`1`) of `coin`" := by
  decide

/-- C12, amended: `giveAdvice` maps each error, bare or wrapped in a `gameOverError`, to
the text of the code: for `invalidStepError` of the step `c O` the text
`things like 'c O' are impossible`, for `notEnoughObjectsError` of an object `O` the text
`be careful with scarce Os`, for `commandLimitExceededError` of `eat` the text `eat less`
and of `talk` the text `talk to less`, for `objectLimitExceededError` of `O` and `limit`
the text `don't be greedy, limit O is enough`, with the names of `c` and `O` and the
decimal form of `limit`. -/
theorem giveAdvice_table (st : step) (obj : thing) (limit n : Int) :
    (giveAdvice (error.invalidStepError st) =
        "things like '" ++ st.cmd ++ " " ++ st.obj.name ++ "' are impossible" ∧
      giveAdvice (error.gameOverError (error.invalidStepError st) n) =
        "things like '" ++ st.cmd ++ " " ++ st.obj.name ++ "' are impossible") ∧
    (giveAdvice (error.notEnoughObjectsError st) =
        "be careful with scarce " ++ st.obj.name ++ "s" ∧
      giveAdvice (error.gameOverError (error.notEnoughObjectsError st) n) =
        "be careful with scarce " ++ st.obj.name ++ "s") ∧
    (giveAdvice (error.commandLimitExceededError eat) = "eat less" ∧
      giveAdvice (error.gameOverError (error.commandLimitExceededError eat) n) = "eat less") ∧
    (giveAdvice (error.commandLimitExceededError talk) = "talk to less" ∧
      giveAdvice (error.gameOverError (error.commandLimitExceededError talk) n) =
        "talk to less") ∧
    (giveAdvice (error.objectLimitExceededError obj limit) =
        "don't be greedy, " ++ toString limit ++ " " ++ obj.name ++ " is enough" ∧
      giveAdvice (error.gameOverError (error.objectLimitExceededError obj limit) n) =
        "don't be greedy, " ++ toString limit ++ " " ++ obj.name ++ " is enough") :=
  ⟨⟨rfl, rfl⟩, ⟨rfl, rfl⟩, ⟨rfl, rfl⟩, ⟨rfl, rfl⟩, ⟨rfl, rfl⟩⟩

/-- C13: the advice for a `notEnoughObjectsError`, bare or wrapped in a `gameOverError`,
is `be careful with scarce ` followed by the name of the object of the step and by `s`,
so it contains that name; two such errors on objects of the same name get the same
advice, whatever their commands, their step counts and their wrapping are. -/
theorem scarce_advice_names_object (st1 st2 : step) (n1 n2 : Int)
    (hname : st1.obj.name = st2.obj.name) :
    (∃ pre suf : String,
        giveAdvice (error.notEnoughObjectsError st1) = pre ++ st1.obj.name ++ suf ∧
          giveAdvice (error.gameOverError (error.notEnoughObjectsError st1) n1) =
            pre ++ st1.obj.name ++ suf) ∧
      giveAdvice (error.notEnoughObjectsError st1) =
        giveAdvice (error.notEnoughObjectsError st2) ∧
      giveAdvice (error.gameOverError (error.notEnoughObjectsError st1) n1) =
        giveAdvice (error.gameOverError (error.notEnoughObjectsError st2) n2) ∧
      giveAdvice (error.gameOverError (error.notEnoughObjectsError st1) n1) =
        giveAdvice (error.notEnoughObjectsError st2) := by
  have e1 : ∀ (st : step), giveAdvice (error.notEnoughObjectsError st) =
      "be careful with scarce " ++ st.obj.name ++ "s" := fun _ => rfl
  have e2 : ∀ (st : step) (n : Int),
      giveAdvice (error.gameOverError (error.notEnoughObjectsError st) n) =
        "be careful with scarce " ++ st.obj.name ++ "s" := fun _ _ => rfl
  refine ⟨⟨"be careful with scarce ", "s", e1 st1, e2 st1 n1⟩, ?_, ?_, ?_⟩
  · rw [e1, e1, hname]
  · rw [e2, e2, hname]
  · rw [e2, e1, hname]

/-- C13 on `eat apple` at step count 0 and `take apple` at step count 2. -/
theorem scarce_advice_names_object_witness :
    giveAdvice (error.gameOverError (error.notEnoughObjectsError ⟨eat, apple⟩) 0) =
      giveAdvice (error.gameOverError (error.notEnoughObjectsError ⟨take, apple⟩) 2) :=
  (scarce_advice_names_object ⟨eat, apple⟩ ⟨take, apple⟩ 0 2 rfl).2.2.1

/-- C14: an error that `execute` returns, whatever the game and the step are (so also
for the commands `eat`, `take` and `talk`), gets an advice that is not the empty string.
The advice is the empty string for an error that is none of the four kinds, bare or
wrapped, and for a `commandLimitExceededError` of a command other than `eat` and
`talk`. -/
theorem engine_errors_have_advice (g : game) (st : step) (e : error)
    (he : (g.execute st).1 = some e) :
    giveAdvice e ≠ "" ∧
      (∀ (msg : String) (n : Int),
        giveAdvice (error.other msg) = "" ∧
          giveAdvice (error.gameOverError (error.other msg) n) = "") ∧
      (∀ (cmd : command) (n : Int), cmd ≠ eat → cmd ≠ talk →
        giveAdvice (error.commandLimitExceededError cmd) = "" ∧
          giveAdvice (error.gameOverError (error.commandLimitExceededError cmd) n) = "") := by
  refine ⟨?_, fun _ _ => ⟨rfl, rfl⟩, ?_⟩
  · rcases execute_error_cases g st e he with h | h | h | h | h
    · rw [h]
      show "things like '" ++ st.cmd ++ " " ++ st.obj.name ++ "' are impossible" ≠ ""
      rw [String.append_assoc, String.append_assoc, String.append_assoc]
      exact append_ne_empty _ _ (by decide)
    · rw [h]
      show "be careful with scarce " ++ st.obj.name ++ "s" ≠ ""
      rw [String.append_assoc]
      exact append_ne_empty _ _ (by decide)
    · rw [h]
      show "eat less" ≠ ""
      decide
    · rw [h]
      show "talk to less" ≠ ""
      decide
    · rw [h]
      show "don't be greedy, " ++ toString (1 : Int) ++ " " ++ st.obj.name ++ " is enough" ≠ ""
      rw [String.append_assoc, String.append_assoc, String.append_assoc]
      exact append_ne_empty _ _ (by decide)
  · intro cmd n h1 h2
    constructor <;>
    simp [giveAdvice, asInvalidStep, asNotEnoughObjects, asCommandLimit, asObjectLimit, h1, h2]

/-- C14 on a new game: the advice for the error of `eat coin` is not empty. -/
theorem engine_errors_have_advice_witness :
    giveAdvice (error.gameOverError (error.invalidStepError ⟨eat, coin⟩) 0) ≠ "" :=
  (engine_errors_have_advice newGame ⟨eat, coin⟩
    (error.gameOverError (error.invalidStepError ⟨eat, coin⟩) 0) (by decide)).1

/-- C15: `Unwrap` of a `gameOverError` with cause `e` and any step count gives `e`. An
error that `execute` returns has a cause that is an `invalidStepError`, a
`notEnoughObjectsError`, a `commandLimitExceededError` or an
`objectLimitExceededError`; exactly one of the four calls of `errors.As` finds its
type in it, and the cause is not a `gameOverError`: it has nothing to unwrap. -/
theorem unwrap_gives_cause (e : error) (n : Int) :
    (error.gameOverError e n).Unwrap = some e ∧
      ∀ (g : game) (st : step) (err : error), (g.execute st).1 = some err →
        ∃ cause, err.Unwrap = some cause ∧
          ((∃ s, cause = error.invalidStepError s) ∨
            (∃ s, cause = error.notEnoughObjectsError s) ∨
            (∃ c, cause = error.commandLimitExceededError c) ∨
            (∃ o l, cause = error.objectLimitExceededError o l)) ∧
          (asInvalidStep cause).isSome.toNat + (asNotEnoughObjects cause).isSome.toNat +
            (asCommandLimit cause).isSome.toNat + (asObjectLimit cause).isSome.toNat = 1 ∧
          cause.Unwrap = none ∧
          ∀ (e' : error) (n' : Int), cause ≠ error.gameOverError e' n' := by
  refine ⟨rfl, ?_⟩
  intro g st err he
  rcases execute_error_cases g st err he with h | h | h | h | h
  · exact ⟨_, by rw [h]; rfl, Or.inl ⟨_, rfl⟩, rfl, rfl, fun _ _ hh => by cases hh⟩
  · exact ⟨_, by rw [h]; rfl, Or.inr (Or.inl ⟨_, rfl⟩), rfl, rfl, fun _ _ hh => by cases hh⟩
  · exact ⟨_, by rw [h]; rfl, Or.inr (Or.inr (Or.inl ⟨_, rfl⟩)), rfl, rfl,
      fun _ _ hh => by cases hh⟩
  · exact ⟨_, by rw [h]; rfl, Or.inr (Or.inr (Or.inl ⟨_, rfl⟩)), rfl, rfl,
      fun _ _ hh => by cases hh⟩
  · exact ⟨_, by rw [h]; rfl, Or.inr (Or.inr (Or.inr ⟨_, _, rfl⟩)), rfl, rfl,
      fun _ _ hh => by cases hh⟩

/-- C15 on a new game: the error of `eat mirror` unwraps to a cause that is not a
`gameOverError`. -/
theorem unwrap_gives_cause_witness :
    ∃ cause, (error.gameOverError (error.invalidStepError ⟨eat, mirror⟩) 0).Unwrap =
        some cause ∧ cause.Unwrap = none :=
  have h := (unwrap_gives_cause (error.other "") 0).2 newGame ⟨eat, mirror⟩
    (error.gameOverError (error.invalidStepError ⟨eat, mirror⟩) 0) (by decide)
  h.elim fun cause hc => ⟨cause, hc.1, hc.2.2.2.1⟩

/-- C16: in a game whose count of dialogs is not negative, as the data model has it
and as it is after any sequence of steps from `newGame`, for `c` one of `eat`, `take`,
`talk`, `execute` of the step `c O` returns `nil` if and only if `O` supports `c`, and
the world count of `O` is positive when `c` is `eat` or `take`, and the player is not at
its limit: at most one eaten for `eat`, no held object with the name of `O` for `take`,
a count of dialogs of 0 for `talk`. The error is the one of the first check that fails,
in the order validity, world inventory, player limit. -/
theorem execute_ok_iff (g : game) (c : command) (O : thing)
    (hc : c = eat ∨ c = take ∨ c = talk) (hd : 0 ≤ g.player.nDialogs) :
    ((g.execute ⟨c, O⟩).1 = none ↔
        (c ∈ O.keys ∧
          ((c = eat ∨ c = take) → 0 < mapGet g.things O.name) ∧
          (c = eat → g.player.nEaten ≤ 1) ∧
          (c = take → ∀ got ∈ g.player.inventory, got.name ≠ O.name) ∧
          (c = talk → g.player.nDialogs = 0))) ∧
      (c ∉ O.keys →
        (g.execute ⟨c, O⟩).1 =
          some (error.gameOverError (error.invalidStepError ⟨c, O⟩) g.nSteps)) ∧
      (c ∈ O.keys → (c = eat ∨ c = take) → mapGet g.things O.name ≤ 0 →
        (g.execute ⟨c, O⟩).1 =
          some (error.gameOverError (error.notEnoughObjectsError ⟨c, O⟩) g.nSteps)) ∧
      (c ∈ O.keys → ((c = eat ∨ c = take) → 0 < mapGet g.things O.name) →
        (c = eat → 1 < g.player.nEaten →
          (g.execute ⟨c, O⟩).1 =
            some (error.gameOverError (error.commandLimitExceededError eat) g.nSteps)) ∧
        (c = take → (∃ got ∈ g.player.inventory, got.name = O.name) →
          (g.execute ⟨c, O⟩).1 =
            some (error.gameOverError (error.objectLimitExceededError O 1) g.nSteps)) ∧
        (c = talk → g.player.nDialogs ≠ 0 →
          (g.execute ⟨c, O⟩).1 =
            some (error.gameOverError (error.commandLimitExceededError talk) g.nSteps))) ∧
      ∀ steps : List step, 0 ≤ (newGame.executeAll steps).player.nDialogs := by
  obtain ⟨h1, h2, h3, h4⟩ := execute_ok_iff_guard g c O hc
  refine ⟨?_, h2, h3, ?_, ?_⟩
  · rw [h1]
    constructor
    · rintro ⟨a1, a2, a3, a4, a5⟩
      exact ⟨a1, a2, a3, a4, fun e => le_antisymm (a5 e) hd⟩
    · rintro ⟨a1, a2, a3, a4, a5⟩
      exact ⟨a1, a2, a3, a4, fun e => le_of_eq (a5 e)⟩
  · intro hk hw
    obtain ⟨b1, b2, b3⟩ := h4 hk hw
    exact ⟨b1, b2, fun e hne => b3 e (lt_of_le_of_ne hd (Ne.symm hne))⟩
  · intro steps
    exact executeAll_nDialogs_nonneg steps newGame (le_refl _)

/-- C16 on a new game: `talk to bob` passes the checks and returns `nil`, and a second
`talk to bob` fails at the player limit. -/
theorem execute_ok_iff_witness :
    (newGame.execute ⟨talk, bob⟩).1 = none ∧
      ((newGame.execute ⟨talk, bob⟩).2.execute ⟨talk, bob⟩).1 =
        some (error.gameOverError (error.commandLimitExceededError talk) 1) :=
  ⟨(execute_ok_iff newGame talk bob (Or.inr (Or.inr rfl)) (by decide)).1.mpr
      ⟨by decide, fun h => by revert h; decide, fun h => absurd h (by decide),
        fun h => absurd h (by decide), fun _ => rfl⟩,
    (execute_ok_iff (newGame.execute ⟨talk, bob⟩).2 talk bob (Or.inr (Or.inr rfl))
      (by decide)).2.2.2.1 (by decide) (fun h => by revert h; decide)
      |>.2.2 rfl (by decide)⟩

/-- C17: when no two objects of the inventory of a player have the same name, this is
so after `player.do` of any command on any object, and after `execute` of any step of a
game with this player. Starting from `newPlayer`, and from `newGame`, it is so after
any sequence of calls. -/
theorem inventory_no_duplicates (p : player) (cmd : command) (obj : thing)
    (h : (p.inventory.map thing.name).Nodup) :
    ((p.doCmd cmd obj).2.inventory.map thing.name).Nodup ∧
      (∀ (g : game) (st : step), g.player = p →
        ((g.execute st).2.player.inventory.map thing.name).Nodup) ∧
      (∀ calls : List (command × thing),
        ((newPlayer.doAll calls).inventory.map thing.name).Nodup) ∧
      ∀ steps : List step,
        ((newGame.executeAll steps).player.inventory.map thing.name).Nodup := by
  refine ⟨doCmd_inventory_nodup p cmd obj h, ?_, ?_, ?_⟩
  · intro g st hg
    exact execute_inventory_nodup g st (by rw [hg]; exact h)
  · intro calls
    exact doAll_inventory_nodup calls newPlayer List.nodup_nil
  · intro steps
    exact executeAll_inventory_nodup steps newGame List.nodup_nil

/-- C17 on the player that holds a coin and takes a coin again, and an apple. -/
theorem inventory_no_duplicates_witness :
    (((player.doCmd ⟨0, 0, [coin]⟩ take coin).2.inventory).map thing.name).Nodup ∧
      (((player.doCmd ⟨0, 0, [coin]⟩ take apple).2.inventory).map thing.name).Nodup :=
  ⟨(inventory_no_duplicates ⟨0, 0, [coin]⟩ take coin (by decide)).1,
    (inventory_no_duplicates ⟨0, 0, [coin]⟩ take apple (by decide)).1⟩

/-- C18: the text of `Error` of a `commandLimitExceededError` is
`you don't want to eat anymore` for every command that it carries, `talk` included, and
the `gameOverError` that wraps it has the same text; this is the text of the error
that the second `talk to bob` of a new game returns. -/
theorem command_limit_text (fmtStep : step → String) (fmtThing : thing → String)
    (cmd : command) (n : Int) :
    (error.commandLimitExceededError cmd).Error fmtStep fmtThing =
        "you don't want to eat anymore" ∧
      (error.gameOverError (error.commandLimitExceededError cmd) n).Error fmtStep fmtThing =
        "you don't want to eat anymore" ∧
      ∃ e, ((newGame.execute ⟨talk, bob⟩).2.execute ⟨talk, bob⟩).1 = some e ∧
        e.Error fmtStep fmtThing = "you don't want to eat anymore" :=
  ⟨rfl, rfl, error.gameOverError (error.commandLimitExceededError talk) 1, by decide, rfl⟩

end NoFail

namespace PanicToError

/-! ## The pieces that `strings.Split` gives -/

theorem splitChars_eq (sep : Char) (cs : List Char) :
    splitChars sep cs =
      cs.takeWhile (fun c => decide (c ≠ sep)) ::
        (if sep ∈ cs then
          splitChars sep ((cs.dropWhile (fun c => decide (c ≠ sep))).drop 1)
        else []) := by
  induction cs with
  | nil => simp [splitChars]
  | cons c rest ih =>
    by_cases hc : c = sep
    · simp [splitChars, hc, List.takeWhile, List.dropWhile]
    · have hc' : ¬ sep = c := fun e => hc e.symm
      rw [splitChars, if_neg hc, ih]
      simp [List.takeWhile, List.dropWhile, hc, hc']

theorem Split_eq (src : String) :
    Split src '/' =
      textBeforeSlash src ::
        (if '/' ∈ src.data then Split (textAfterSlash src) '/' else []) := by
  unfold Split textBeforeSlash textAfterSlash
  rw [splitChars_eq]
  by_cases h : '/' ∈ src.data
  · simp [h]
  · simp [h]

theorem parseAccount_eq (src : String) :
    parseAccount src =
      match Atoi (textBeforeSlash src) with
      | none => some (⟨0, 0⟩, some (error.numError (textBeforeSlash src)))
      | some balance =>
        if '/' ∈ src.data then
          match Atoi (textBeforeSlash (textAfterSlash src)) with
          | none =>
            some (⟨0, 0⟩, some (error.numError (textBeforeSlash (textAfterSlash src))))
          | some overdraft =>
            if overdraft < 0 then some (⟨0, 0⟩, some (error.new "expect overdraft >= 0"))
            else if balance < -overdraft then
              some (⟨0, 0⟩, some (error.new "balance cannot exceed overdraft"))
            else some (⟨balance, overdraft⟩, none)
        else none := by
  unfold parseAccount
  rw [Split_eq src]
  by_cases h : '/' ∈ src.data
  · rw [if_pos h, Split_eq (textAfterSlash src)]
    simp only [h, if_true]
  · simp only [h, if_false]

/-! ## The claims on `parseAccount` -/

/-- C19 as stated fails: for the text `1/2/3` the function `parseAccount` returns the
account with balance 1 and overdraft 2 and the error `nil`, although the text after the
first `/`, which is `2/3`, is not an integer. -/
theorem parseAccount_ignores_third_field :
    parseAccount "1/2/3" = some (⟨1, 2⟩, none) ∧
      textBeforeSlash "1/2/3" = "1" ∧
      textAfterSlash "1/2/3" = "2/3" ∧
      Atoi (textAfterSlash "1/2/3") = none := by
  decide

/-- C19, amended: when `parseAccount` returns the error `nil`, the account has an
overdraft of at least 0 and a balance of at least minus the overdraft, the text has a
`/`, and the balance and the overdraft are the integers that `strconv.Atoi` reads from
the first two pieces of `strings.Split`: the text before the first `/`, and the text
between the first `/` and the next one, or the end. When the text has a `/` and one of
the two pieces is not an integer, or the overdraft is negative, or the balance is below
minus the overdraft, it returns the zero account and an error; so it does when the first
piece is not an integer, with or without a `/`. -/
theorem parseAccount_within_overdraft (src : String) :
    (∀ acc : account, parseAccount src = some (acc, none) →
        0 ≤ acc.overdraft ∧ -acc.overdraft ≤ acc.balance ∧ '/' ∈ src.data ∧
          (∃ rest, Split src '/' =
            textBeforeSlash src :: textBeforeSlash (textAfterSlash src) :: rest) ∧
          Atoi (textBeforeSlash src) = some acc.balance ∧
          Atoi (textBeforeSlash (textAfterSlash src)) = some acc.overdraft) ∧
      ('/' ∈ src.data →
        (Atoi (textBeforeSlash src) = none ∨
          Atoi (textBeforeSlash (textAfterSlash src)) = none ∨
          ∃ b o, Atoi (textBeforeSlash src) = some b ∧
            Atoi (textBeforeSlash (textAfterSlash src)) = some o ∧ (o < 0 ∨ b < -o)) →
        ∃ e, parseAccount src = some (⟨0, 0⟩, some e)) ∧
      (Atoi (textBeforeSlash src) = none →
        ∃ e, parseAccount src = some (⟨0, 0⟩, some e)) := by
  refine ⟨?_, ?_, ?_⟩
  · intro acc hacc
    rw [parseAccount_eq] at hacc
    rcases hb : Atoi (textBeforeSlash src) with _ | b
    · simp [hb] at hacc
    · by_cases hs : '/' ∈ src.data
      · rcases ho : Atoi (textBeforeSlash (textAfterSlash src)) with _ | o
        · simp [hb, hs, ho] at hacc
        · by_cases h1 : o < 0
          · simp [hb, hs, ho, h1] at hacc
          · by_cases h2 : b < -o
            · simp [hb, hs, ho, h1, h2] at hacc
            · simp [hb, hs, ho, h1, h2] at hacc
              subst hacc
              refine ⟨not_lt.mp h1, not_lt.mp h2, hs, ?_, rfl, rfl⟩
              rw [Split_eq src, if_pos hs, Split_eq (textAfterSlash src)]
              exact ⟨_, rfl⟩
      · simp [hb, hs] at hacc
  · intro hs hbad
    rw [parseAccount_eq]
    rcases hb : Atoi (textBeforeSlash src) with _ | b
    · exact ⟨_, rfl⟩
    · rcases ho : Atoi (textBeforeSlash (textAfterSlash src)) with _ | o
      · simp only [hs, if_true]
        exact ⟨_, rfl⟩
      · simp only [hs, if_true]
        rcases hbad with h | h | ⟨b', o', hb', ho', hlt⟩
        · rw [hb] at h; cases h
        · rw [ho] at h; cases h
        · rw [hb] at hb'; rw [ho] at ho'
          cases hb'; cases ho'
          by_cases h1 : o < 0
          · rw [if_pos h1]; exact ⟨_, rfl⟩
          · have h2 : b < -o := hlt.resolve_left h1
            rw [if_neg h1, if_pos h2]; exact ⟨_, rfl⟩
  · intro hb
    rw [parseAccount_eq, hb]
    exact ⟨_, rfl⟩

/-- C19, amended, on the text `-5/10`: the balance is -5 and the overdraft is 10. -/
theorem parseAccount_within_overdraft_witness :
    Atoi (textBeforeSlash "-5/10") = some (-5) ∧
      Atoi (textBeforeSlash (textAfterSlash "-5/10")) = some 10 :=
  have h := (parseAccount_within_overdraft "-5/10").1 ⟨-5, 10⟩ (by decide)
  ⟨h.2.2.2.2.1, h.2.2.2.2.2⟩

/-- C20 fails on the code: for the text `5`, which has no `/`, `strings.Split` gives one
piece, `parseAccount` reads the piece of index 1 and ends in a panic, so it returns no
pair. The empty text gives the zero account and the error of `strconv.Atoi`. -/
theorem parseAccount_panics_without_slash :
    Split "5" '/' = ["5"] ∧ parseAccount "5" = none ∧
      parseAccount "" = some (⟨0, 0⟩, some (error.numError "")) := by
  decide

end PanicToError
